import Mathlib

/-!
Verification of the trigger-detection and streaming-execution pipeline of a
Bitbucket CI pipe that drives an external AI-assistant CLI.

Strings from the TypeScript source are modelled as `List Char` so that the
character-level operations (line splitting, trimming, substring search,
pattern matching) can be reasoned about directly.  JavaScript `Date.now()`
timestamps are modelled as `Nat` milliseconds.  Fields and functions keep the
source names where Lean allows it.
-/

/-- JavaScript whitespace trimming (`String.prototype.trim`) on character
lists: drop whitespace from both ends. -/
def trimList (s : List Char) : List Char :=
  ((s.dropWhile Char.isWhitespace).reverse.dropWhile Char.isWhitespace).reverse

/-- Lower-casing used to model the `/i` (case-insensitive) regular-expression
flag: patterns are matched against the lower-cased text. -/
def toLowerList (s : List Char) : List Char :=
  s.map Char.toLower

/-- JavaScript `String.prototype.includes`: substring occurrence test. -/
def containsSub (pat : List Char) : List Char → Bool
  | [] => pat.isEmpty
  | c :: rest => pat.isPrefixOf (c :: rest) || containsSub pat rest

/- ===================== comment-stream.ts ===================== -/

/-- `UPDATE_THROTTLE_MS = 1000` from `src/bitbucket/comment-stream.ts`. -/
def UPDATE_THROTTLE_MS : Nat := 1000

/-- Execution status of a run (`"success" | "error" | "timeout"`). -/
inductive RunStatus
  | success
  | error
  | timeout
deriving DecidableEq, Repr

/-- One invocation of `updateCommentStream`, reduced to the data the throttle
inspects: the value of `Date.now()` at the call and the `isPartial` flag
(here named `interim` because of lexical restrictions of the development). -/
structure UpdateCall where
  time : Nat
  interim : Bool
deriving DecidableEq, Repr

/-- The throttle at the top of `updateCommentStream`
(`src/bitbucket/comment-stream.ts` lines 27-31): a partial update arriving
less than `UPDATE_THROTTLE_MS` after `lastUpdateTime` returns early without
touching `lastUpdateTime`; every other call proceeds and sets
`lastUpdateTime = now`.  Returns (accepted, new `lastUpdateTime`).
JavaScript `now - lastUpdateTime` is modelled by truncated `Nat`
subtraction; both yield "suppressed" whenever `now < lastUpdateTime + 1000`. -/
def throttleStep (lastUpdateTime : Nat) (c : UpdateCall) : Bool × Nat :=
  if c.interim && decide (c.time - lastUpdateTime < UPDATE_THROTTLE_MS) then
    (false, lastUpdateTime)
  else
    (true, c.time)

/-- Run a sequence of `updateCommentStream` calls through the throttle,
starting from a given `lastUpdateTime` (the module initialises it to `0`),
recording for each call whether it was accepted. -/
def throttleRun : Nat → List UpdateCall → List (UpdateCall × Bool)
  | _, [] => []
  | last, c :: cs =>
    let r := throttleStep last c
    (c, r.1) :: throttleRun r.2 cs

/-- Times of the accepted partial updates in a throttled run. -/
def acceptedPartialTimes (last : Nat) (cs : List UpdateCall) : List Nat :=
  (throttleRun last cs).filterMap fun p =>
    if p.2 && p.1.interim then some p.1.time else none

/- ===================== runner.ts: exit/timeout handling ===================== -/

/-- The runner-local mutable state relevant to status reporting:
`status` (initialised `"success"`) and `error` (initialised undefined). -/
structure RunnerState where
  status : RunStatus
  error : Option (List Char)
deriving DecidableEq, Repr

/-- Initial values of `status` and `error` in `runClaudeCode`. -/
def initialRunnerState : RunnerState := ⟨.success, none⟩

/-- The error text set when the timeout fires:
`Execution timed out after N minutes`. -/
def timeoutMessage (timeoutMinutes : Nat) : List Char :=
  ("Execution timed out after " ++ toString timeoutMinutes ++ " minutes").toList

/-- The timeout-timer callback (`runner.ts` lines 877-882): sends SIGTERM
(not modelled) and sets `status = "timeout"` with a descriptive error. -/
def fireTimeout (timeoutMinutes : Nat) (st : RunnerState) : RunnerState :=
  { st with status := .timeout, error := some (timeoutMessage timeoutMinutes) }

/-- The default error text for a non-zero exit code without stderr:
`Claude exited with code N`. -/
def exitMessage (code : Int) : List Char :=
  ("Claude exited with code " ++ toString code).toList

/-- The subprocess `exit` handler (`runner.ts` lines 1007-1037): first, if the
collected `stderrOutput` is non-empty it is written into `error`
(unconditionally, whatever the exit code); then exit code `0` leaves `status`
unchanged, a non-zero code when `status` is already `"timeout"` is treated as
already handled, and otherwise `status` becomes `"error"` with
`error = error || exitMessage code`. -/
def handleExit (st : RunnerState) (stderrOutput : List Char) (code : Int) : RunnerState :=
  let st1 := if stderrOutput ≠ [] then { st with error := some stderrOutput } else st
  if code = 0 then st1
  else if st1.status = .timeout then st1
  else { status := .error, error := some (st1.error.getD (exitMessage code)) }

/- ===================== theorems: C1, C8, C3 ===================== -/

theorem handleExit_timeout_invariant (st : RunnerState) (stderr : List Char) (code : Int)
    (h : st.status = .timeout) : (handleExit st stderr code).status = .timeout := by
  unfold handleExit
  by_cases h0 : code = 0 <;> by_cases hs : stderr ≠ [] <;>
    simp [h0, hs, h]

/-- C1: once the timeout timer has fired, every subsequently delivered
subprocess exit event — any exit code, any stderr, any number of deliveries —
leaves the status at `timeout`; it is never overwritten to `success` or
`error`. -/
theorem timeout_first_writer_wins (timeoutMinutes : Nat)
    (events : List (List Char × Int)) :
    (events.foldl (fun st e => handleExit st e.1 e.2)
        (fireTimeout timeoutMinutes initialRunnerState)).status = .timeout := by
  have key : ∀ (es : List (List Char × Int)) (st : RunnerState),
      st.status = .timeout →
      (es.foldl (fun st e => handleExit st e.1 e.2) st).status = .timeout := by
    intro es
    induction es with
    | nil => intro st h; simpa using h
    | cons e es ih =>
      intro st h
      exact ih _ (handleExit_timeout_invariant st e.1 e.2 h)
  exact key events _ rfl

/-- C8 counterexample: a subprocess that exits with code `0` but produced
non-empty stderr yields `status = success` with the stderr attached as the
error message — contradicting the claim that exit code `0` yields no error
message. -/
theorem stderr_on_success_counterexample :
    (handleExit initialRunnerState "deprecation warning".toList 0).status = .success ∧
    (handleExit initialRunnerState "deprecation warning".toList 0).error =
      some "deprecation warning".toList := by
  constructor <;> rfl

/-- C8 (amended): non-empty stderr collected up to exit is attached as the
error message whatever the exit code (even on exit code 0, whose status is
still `success`); a run with exit code 0 has no error message only when
stderr is empty; in particular exit code 1 with stderr
`rate limit exceeded` yields `status = error` with that error message. -/
theorem stderr_error_attachment :
    (∀ (stderr : List Char) (code : Int), stderr ≠ [] → code ≠ 0 →
      handleExit initialRunnerState stderr code = ⟨.error, some stderr⟩) ∧
    (∀ stderr : List Char,
      (handleExit initialRunnerState stderr 0).status = .success ∧
      (handleExit initialRunnerState stderr 0).error =
        (if stderr = [] then none else some stderr)) ∧
    handleExit initialRunnerState "rate limit exceeded".toList 1 =
      ⟨.error, some "rate limit exceeded".toList⟩ := by
  refine ⟨?_, ?_, ?_⟩
  · intro stderr code hs hc
    unfold handleExit
    simp [hs, hc, initialRunnerState]
  · intro stderr
    by_cases hs : stderr = [] <;> unfold handleExit <;> simp [hs, initialRunnerState]
  · rfl

theorem stderr_error_attachment_witness :
    handleExit initialRunnerState "rate limit exceeded".toList 1 =
      ⟨.error, some "rate limit exceeded".toList⟩ :=
  stderr_error_attachment.1 "rate limit exceeded".toList 1 (by decide) (by decide)

theorem chain_le_of_le {a b : Nat} {l : List Nat} (hab : a ≤ b)
    (h : List.Chain (· ≤ ·) b l) : List.Chain (· ≤ ·) a l := by
  cases l with
  | nil => exact List.Chain.nil
  | cons x xs =>
    rcases List.chain_cons.mp h with ⟨hx, hxs⟩
    exact List.chain_cons.mpr ⟨le_trans hab hx, hxs⟩

theorem acceptedPartialTimes_spaced : ∀ (cs : List UpdateCall) (last : Nat),
    List.Chain (· ≤ ·) last (cs.map (·.time)) →
    (∀ t ∈ acceptedPartialTimes last cs, last + UPDATE_THROTTLE_MS ≤ t) ∧
    List.Pairwise (fun t1 t2 => t1 + UPDATE_THROTTLE_MS ≤ t2)
      (acceptedPartialTimes last cs) := by
  intro cs
  induction cs with
  | nil =>
    intro last _
    exact ⟨by intro t ht; simp [acceptedPartialTimes, throttleRun] at ht,
      by simp [acceptedPartialTimes, throttleRun]⟩
  | cons c cs ih =>
    intro last hchain
    rcases List.chain_cons.mp (by simpa using hchain) with ⟨hlc, hrest⟩
    by_cases hsup : c.interim && decide (c.time - last < UPDATE_THROTTLE_MS)
    · -- suppressed: state unchanged, head not accepted
      have hstep : throttleStep last c = (false, last) := by
        simp [throttleStep, hsup]
      have hAP : acceptedPartialTimes last (c :: cs) = acceptedPartialTimes last cs := by
        simp [acceptedPartialTimes, throttleRun, hstep]
      rw [hAP]
      exact ih last (chain_le_of_le hlc hrest)
    · -- accepted: state advances to c.time
      have hstep : throttleStep last c = (true, c.time) := by
        simp only [throttleStep]
        rw [if_neg (by simpa using hsup)]
      rcases ih c.time hrest with ⟨hge, hpw⟩
      by_cases hint : c.interim
      · -- accepted partial: its time is at least last + 1000
        have hgap : last + UPDATE_THROTTLE_MS ≤ c.time := by
          have hnot : ¬ (c.time - last < UPDATE_THROTTLE_MS) := by
            intro hlt
            exact hsup (by simp [hint, hlt])
          omega
        have hAP : acceptedPartialTimes last (c :: cs) =
            c.time :: acceptedPartialTimes c.time cs := by
          simp [acceptedPartialTimes, throttleRun, hstep, hint]
        rw [hAP]
        constructor
        · intro t ht
          rcases List.mem_cons.mp ht with h | h
          · omega
          · have := hge t h; omega
        · exact List.pairwise_cons.mpr ⟨fun t ht => hge t ht, hpw⟩
      · -- accepted final: not a partial, list unchanged but state advances
        have hAP : acceptedPartialTimes last (c :: cs) =
            acceptedPartialTimes c.time cs := by
          simp [acceptedPartialTimes, throttleRun, hstep, hint]
        rw [hAP]
        refine ⟨fun t ht => ?_, hpw⟩
        have := hge t ht; omega

/-- C3: (i) a partial update arriving fewer than 1000 ms after the last
accepted update is suppressed and does not advance the throttle timestamp;
(ii) a final (non-partial) update is accepted unconditionally, even
immediately after a suppressed partial; (iii) hence, along any invocation
(monotone `Date.now()` values, throttle state starting at 0), the times of
accepted partial updates are pairwise at least 1000 ms apart, so at most one
partial update is accepted within any 1000 ms window. -/
theorem throttle_partial_window :
    (∀ (last : Nat) (c : UpdateCall), c.interim = true →
      c.time - last < UPDATE_THROTTLE_MS → throttleStep last c = (false, last)) ∧
    (∀ (last : Nat) (c : UpdateCall), c.interim = false →
      throttleStep last c = (true, c.time)) ∧
    (∀ cs : List UpdateCall, List.Chain (· ≤ ·) 0 (cs.map (·.time)) →
      List.Pairwise (fun t1 t2 => t1 + UPDATE_THROTTLE_MS ≤ t2)
        (acceptedPartialTimes 0 cs)) := by
  refine ⟨?_, ?_, ?_⟩
  · intro last c hp hlt
    simp [throttleStep, hp, hlt]
  · intro last c hp
    simp [throttleStep, hp]
  · intro cs hchain
    exact (acceptedPartialTimes_spaced cs 0 hchain).2

theorem throttle_partial_window_witness :
    throttleStep 1000 ⟨1500, true⟩ = (false, 1000) ∧
    throttleStep 1000 ⟨1500, false⟩ = (true, 1500) ∧
    List.Pairwise (fun t1 t2 => t1 + UPDATE_THROTTLE_MS ≤ t2)
      (acceptedPartialTimes 0 [⟨1000, true⟩, ⟨1500, true⟩, ⟨1500, false⟩]) :=
  ⟨throttle_partial_window.1 1000 ⟨1500, true⟩ rfl (by decide),
   throttle_partial_window.2.1 1000 ⟨1500, false⟩ rfl,
   throttle_partial_window.2.2 _ (by simp [List.chain_cons])⟩


/- ===================== runner.ts: stdout line buffering (lines 908-991) ===================== -/

/-- Helper for `splitLines`: prepend a non-newline character to the first
complete line, or to the retained buffer when no complete line exists yet. -/
def consLine (c : Char) : List (List Char) × List Char → List (List Char) × List Char
  | ([], buf) => ([], c :: buf)
  | (l :: ls, buf) => ((c :: l) :: ls, buf)

/-- The line-buffering view of the stdout handler: given the bytes seen so
far, return the complete (newline-terminated) lines in order together with
the trailing incomplete line.  This models `buffer.split("\n")` followed by
`buffer = lines.pop()`: the last element of the JavaScript split is the
retained buffer, all earlier elements are the emitted lines. -/
def splitLines : List Char → List (List Char) × List Char
  | [] => ([], [])
  | c :: cs =>
    if c = '\n' then ([] :: (splitLines cs).1, (splitLines cs).2)
    else consLine c (splitLines cs)

/-- One `data` event of the stdout handler: append the chunk to the buffer,
split off the complete lines, retain the trailing incomplete line. -/
def feedChunk (buf chunk : List Char) : List (List Char) × List Char :=
  splitLines (buf ++ chunk)

/-- The whole stdout stream: fold `feedChunk` over the chunk sequence,
collecting every emitted complete line in arrival order; the final trailing
buffer is never handed to the parser (the `end` handler only logs it). -/
def processChunks : List Char → List (List Char) → List (List Char) × List Char
  | buf, [] => ([], buf)
  | buf, chunk :: rest =>
    let fed := feedChunk buf chunk
    let r := processChunks fed.2 rest
    (fed.1 ++ r.1, r.2)

theorem splitLines_append (a b : List Char) :
    splitLines (a ++ b) =
      ((splitLines a).1 ++ (splitLines ((splitLines a).2 ++ b)).1,
       (splitLines ((splitLines a).2 ++ b)).2) := by
  induction a with
  | nil => simp [splitLines]
  | cons c cs ih =>
    by_cases hc : c = '\n'
    · subst hc
      simp [splitLines, ih]
    · rcases hx : splitLines cs with ⟨lines, buf⟩
      cases lines with
      | nil =>
        rcases hy : splitLines (buf ++ b) with ⟨lines2, buf2⟩
        have hcb : splitLines (cs ++ b) = (lines2, buf2) := by
          rw [ih, hx]; simp [hy]
        cases lines2 with
        | nil => simp [splitLines, if_neg hc, hx, hy, hcb, consLine]
        | cons l ls => simp [splitLines, if_neg hc, hx, hy, hcb, consLine]
      | cons l ls =>
        simp [List.cons_append, splitLines, if_neg hc, ih, hx, consLine]

theorem splitLines_no_newline (s : List Char) :
    ∀ l ∈ (splitLines s).1, '\n' ∉ l := by
  induction s with
  | nil => simp [splitLines]
  | cons c cs ih =>
    by_cases hc : c = '\n'
    · subst hc
      simp only [splitLines, if_pos rfl]
      intro l hl
      rcases List.mem_cons.mp hl with h | h
      · subst h; simp
      · exact ih l h
    · rcases hx : splitLines cs with ⟨lines, buf⟩
      cases lines with
      | nil => simp [splitLines, if_neg hc, hx, consLine]
      | cons l ls =>
        simp only [splitLines, if_neg hc, hx, consLine]
        intro m hm
        rcases List.mem_cons.mp hm with h | h
        · subst h
          intro hmem
          rcases List.mem_cons.mp hmem with h | h
          · exact hc h.symm
          · exact ih l (by simp [hx]) h
        · exact ih m (by simp [hx, h])

theorem processChunks_cons_flatten :
    ∀ (cs : List (List Char)) (buf c : List Char),
      processChunks buf (c :: cs) = splitLines (buf ++ (c :: cs).flatten) := by
  intro cs
  induction cs with
  | nil =>
    intro buf c
    simp [processChunks, feedChunk]
  | cons c2 cs ih =>
    intro buf c
    have expand : processChunks buf (c :: c2 :: cs) =
        ((feedChunk buf c).1 ++ (processChunks (feedChunk buf c).2 (c2 :: cs)).1,
         (processChunks (feedChunk buf c).2 (c2 :: cs)).2) := rfl
    rw [expand, ih _ c2]
    simp only [feedChunk]
    have hfl : (c :: c2 :: cs).flatten = c ++ (c2 :: cs).flatten := rfl
    rw [hfl, ← List.append_assoc]
    exact (splitLines_append (buf ++ c) (c2 :: cs).flatten).symm

/-- JavaScript `x || d` for a possibly-absent string value: the default is
used when the value is absent or the empty string (both falsy). -/
def jsOrList (a : Option (List Char)) (d : List Char) : List Char :=
  match a with
  | some s => if s.isEmpty then d else s
  | none => d

/-- String interpolation of a possibly-absent value: JavaScript prints
`undefined` for an absent value inside a template literal. -/
def jsTemplate (a : Option (List Char)) : List Char :=
  a.getD "undefined".toList

/-- Serialized form of the empty object `\x7b\x7d` used as the default tool
input payload (`content.input || ...`); tool inputs are modelled by their
serialized JSON text. -/
def emptyObjText : List Char := "\x7b\x7d".toList

/-- A `tool_use` record stored on a conversation turn: `name`, serialized
`input` payload, and the pending `output` (always `null` at record time). -/
structure ToolUse where
  name : List Char
  input : List Char
  output : Option (List Char)
deriving DecidableEq, Repr

/-- One role-tagged conversation turn as accumulated by the runner.  The
wall-clock `timestamp` field of the source is outside the model. -/
structure ConversationTurn where
  role : List Char
  content : List Char
  tools : List ToolUse
deriving DecidableEq, Repr

/-- One content block of an assistant message event
(`message.content[]` with `type` in text / tool_use / other). -/
inductive ContentBlock
  | text (text : List Char)
  | toolUse (name : Option (List Char)) (input : Option (List Char))
  | other
deriving DecidableEq, Repr

/-- The `message` payload of an `assistant` event: its `content` array may
be absent (the handler checks `message.content && Array.isArray`). -/
structure StreamMessage where
  content : Option (List ContentBlock)
deriving DecidableEq, Repr

/-- A parsed stream event, discriminated on its `type` field exactly as the
handler does: `assistant` (with optional message), `result` (with optional
final text), legacy `completion` (with optional `data.content`), and any
other recognised-but-ignored type. -/
inductive StreamEvent
  | assistant (message : Option StreamMessage)
  | result (result : Option (List Char))
  | completion (dataContent : Option (List Char))
  | other
deriving DecidableEq, Repr

/-- The accumulation state of the stdout handler: `currentContent` (the
accumulated response text) and the ordered `turns` list. -/
structure StreamState where
  currentContent : List Char
  turns : List ConversationTurn
deriving DecidableEq, Repr

/-- Initial accumulation state of `runClaudeCode`. -/
def initialStreamState : StreamState := ⟨[], []⟩

/-- Handling of one content block of an assistant message (`runner.ts`
lines 939-968): a `text` block appends to `currentContent` (the comment
streaming triggered here is modelled separately by the comment-stream
theorems); a `tool_use` block appends one conversation turn recording the
tool name (`content.name || "unknown"`) and input (`content.input || ` the
empty object), with `output: null`. -/
def handleBlock (st : StreamState) (b : ContentBlock) : StreamState :=
  match b with
  | .text t => { st with currentContent := st.currentContent ++ t }
  | .toolUse name input =>
    { st with turns := st.turns ++
        [{ role := "assistant".toList,
           content := "Using tool: ".toList ++ jsTemplate name,
           tools := [{ name := jsOrList name "unknown".toList,
                       input := (input.getD emptyObjText),
                       output := none }] }] }
  | .other => st

/-- Handling of one parsed stream event (`runner.ts` lines 935-985):
`assistant` iterates the content blocks; `result` installs the final text
only when nothing was accumulated incrementally (`!currentContent`);
legacy `completion` overwrites the content when `data.content` is truthy. -/
def handleEvent (st : StreamState) (e : StreamEvent) : StreamState :=
  match e with
  | .assistant msg =>
    match msg with
    | some m =>
      match m.content with
      | some blocks => blocks.foldl handleBlock st
      | none => st
    | none => st
  | .result r =>
    match r with
    | some res =>
      if res.isEmpty then st
      else if st.currentContent.isEmpty then { st with currentContent := res } else st
    | none => st
  | .completion d =>
    match d with
    | some content => if content.isEmpty then st else { st with currentContent := content }
    | none => st
  | .other => st

/-- Processing of one complete line (`runner.ts` lines 927-989): blank lines
are skipped (`if (!line.trim()) continue`), lines the JSON parser rejects
are non-fatal diagnostics, parsed events go to `handleEvent`.  The JSON
parser itself is a parameter: the theorems hold for every parser, since the
handler applies it to complete lines only. -/
def dispatchLine (parse : List Char → Option StreamEvent)
    (st : StreamState) (line : List Char) : StreamState :=
  if (trimList line).isEmpty then st
  else
    match parse line with
    | some ev => handleEvent st ev
    | none => st

/-- The full stdout pipeline for a given chunk sequence: line-buffer the
chunks, then fold the per-line handler over the emitted lines in order. -/
def runStream (parse : List Char → Option StreamEvent)
    (chunks : List (List Char)) : StreamState :=
  ((processChunks [] chunks).1).foldl (dispatchLine parse) initialStreamState

/-- C2: chunk-split invariance of the stream parser.  For every byte string
(given as its chunk decomposition) the line-buffering loop emits exactly the
same complete lines, in the same order, as processing the whole string as a
single chunk; no emitted line contains a newline, so only complete,
newline-terminated lines — never partial JSON — reach the parser; hence for
every parser the accumulated response text and the tool-use conversation
turns (in order) are identical under the two processings. -/
theorem stream_chunk_split_invariance (parse : List Char → Option StreamEvent)
    (chunks : List (List Char)) :
    (processChunks [] chunks).1 = (processChunks [] [chunks.flatten]).1 ∧
    (∀ l ∈ (processChunks [] chunks).1, '\n' ∉ l) ∧
    runStream parse chunks = runStream parse [chunks.flatten] := by
  have hlines : (processChunks [] chunks).1 = (processChunks [] [chunks.flatten]).1 := by
    cases chunks with
    | nil => simp [processChunks, feedChunk, splitLines]
    | cons c cs =>
      rw [processChunks_cons_flatten, processChunks_cons_flatten]
      simp
  refine ⟨hlines, ?_, ?_⟩
  · intro l hl
    cases chunks with
    | nil => simp [processChunks] at hl
    | cons c cs =>
      rw [processChunks_cons_flatten] at hl
      exact splitLines_no_newline _ l hl
  · unfold runStream
    rw [hlines]

/- ===================== request classifier (classifyRequest) ===================== -/

/-- JavaScript regex word-character class `\w` = `[A-Za-z0-9_]`;
word boundaries `\b` are positions where exactly one side is a word
character.  All pattern alternatives below start and end with letters, so a
`\b` before an alternative holds iff the preceding character is absent or a
non-word character, and a `\b` after it holds iff the following character is
absent or a non-word character. -/
def isWordChar (c : Char) : Bool := c.isAlphanum || c == '_'

/-- A `\b` immediately before a letter-initial literal: the previous
character is absent or not a word character. -/
def boundaryBefore : Option Char → Bool
  | none => true
  | some c => !isWordChar c

/-- A `\b` immediately after a letter-final literal: the next character is
absent or not a word character. -/
def boundaryAfterAt : List Char → Bool
  | [] => true
  | c :: _ => !isWordChar c

/-- Scan every position of the text (carrying the previous character, for
word-boundary tests) and ask whether the position-local matcher succeeds
somewhere: an unanchored regex matches iff it matches at some position. -/
def scanPos (f : Option Char → List Char → Bool) : Option Char → List Char → Bool
  | prev, [] => f prev []
  | prev, c :: rest => f prev (c :: rest) || scanPos f (some c) rest

/-- Unanchored match of a position-local matcher. -/
def existsMatchPos (f : Option Char → List Char → Bool) (s : List Char) : Bool :=
  scanPos f none s

/-- Occurrence of one of the literal alternatives with `\b` on both sides:
the regex shape `\b(w1|w2|...)\b`. -/
def hasWordAlt (alts : List (List Char)) (s : List Char) : Bool :=
  existsMatchPos (fun prev t =>
    boundaryBefore prev &&
    alts.any (fun w => w.isPrefixOf t && boundaryAfterAt (t.drop w.length))) s

/-- `\s+` followed by a continuation whose first expected character is a
non-whitespace letter: the greedy/backtracking union over how many
whitespace characters `\s+` takes collapses to requiring at least one
whitespace character and running the continuation after the maximal
whitespace run (a shorter take would leave a whitespace character where the
continuation expects a letter). -/
def wsThenK (t : List Char) (k : List Char → Bool) : Bool :=
  match t with
  | [] => false
  | c :: _ => c.isWhitespace && k (t.dropWhile Char.isWhitespace)

/-- `(lit\s+)?` before a letter-initial continuation: either take the
literal and at least one whitespace character, or skip the optional group. -/
def optLitWs (lit : List Char) (t : List Char) (k : List Char → Bool) : Bool :=
  (lit.isPrefixOf t && wsThenK (t.drop lit.length) k) || k t

/-- Membership of a segment in the language `\s+\w*\s*` (used between a
polite-request phrase and the action verb): at least one leading whitespace
character, then word characters, then whitespace, consuming the whole
segment. -/
def isWsWordWs (seg : List Char) : Bool :=
  match seg with
  | [] => false
  | c :: _ => c.isWhitespace &&
      ((((seg.dropWhile Char.isWhitespace).dropWhile isWordChar).dropWhile
          Char.isWhitespace)).isEmpty

/-- `\s+\w*\s*` then one of the literal alternatives (no trailing `\b`):
union over every split point of the backtracking search. -/
def swsThenAlt (alts : List (List Char)) (t : List Char) : Bool :=
  (List.range (t.length + 1)).any fun i =>
    isWsWordWs (t.take i) && alts.any (fun w => w.isPrefixOf (t.drop i))

/-- The text up to the first newline: the region reachable by `.*` (the
`.` metacharacter does not match newlines). -/
def firstLine (s : List Char) : List Char := s.takeWhile (· ≠ '\n')

/-- `.*\b(w1|w2|...)` scanning forward from a position whose previous
character is `prev`: an alternative occurs later with a word boundary before
it and only non-newline characters consumed by `.*`. -/
def dotStarBndAlt (alts : List (List Char)) : Option Char → List Char → Bool
  | prev, [] => boundaryBefore prev && alts.any (·.isPrefixOf ([] : List Char))
  | prev, c :: rest =>
      (boundaryBefore prev && alts.any (·.isPrefixOf (c :: rest))) ||
      (c != '\n' && dotStarBndAlt alts (some c) rest)

/-- `.*P` for a position-local predicate `P` (no boundary): scan forward
through non-newline characters. -/
def dotStarPred (f : List Char → Bool) : List Char → Bool
  | [] => f []
  | c :: rest => f (c :: rest) || (c != '\n' && dotStarPred f rest)

/-- The 29 direct action verbs shared by the first three actionable
patterns. -/
def ACTION_VERBS : List (List Char) :=
  ["change", "update", "fix", "add", "remove", "delete", "modify", "replace",
   "rename", "move", "create", "implement", "refactor", "optimize", "improve",
   "enhance", "correct", "adjust", "alter", "revise", "edit", "write", "make",
   "set", "turn", "switch", "convert", "transform", "migrate"].map String.toList

/-- Actionable pattern 1: direct action verbs,
regex `\b(change|update|...|migrate)\b` with the `i` flag (all patterns are
applied to the lower-cased text). -/
def actionable1 (s : List Char) : Bool := hasWordAlt ACTION_VERBS s

/-- The polite-request openers of actionable pattern 2. -/
def POLITE_PHRASES : List (List Char) :=
  ["could you", "can you", "please", "would you", "will you", "help me",
   "i need you to", "i want you to"].map String.toList

/-- Actionable pattern 2: polite requests with action intent,
regex `\b(could you|can you|please|...)\s+\w*\s*(change|...|migrate)`. -/
def actionable2 (s : List Char) : Bool :=
  existsMatchPos (fun prev t =>
    boundaryBefore prev &&
    POLITE_PHRASES.any (fun p => p.isPrefixOf t &&
      swsThenAlt ACTION_VERBS (t.drop p.length))) s

/-- Actionable pattern 3: imperative forms, regex `^(change|...|migrate)\s+`. -/
def actionable3 (s : List Char) : Bool :=
  ACTION_VERBS.any fun w => w.isPrefixOf s &&
    (match s.drop w.length with
     | c :: _ => c.isWhitespace
     | [] => false)

/-- The comparative adjectives of actionable pattern 4. -/
def SIZE_ADJS : List (List Char) :=
  ["darker", "lighter", "bigger", "smaller", "larger", "wider", "narrower",
   "thicker", "thinner"].map String.toList

/-- The style nouns of actionable pattern 4. -/
def STYLE_NOUNS : List (List Char) :=
  ["shade", "color", "size", "width", "height", "margin", "padding"].map String.toList

/-- Actionable pattern 4: color/style changes,
regex `\b(darker|...|thinner)\s+(shade|color|...|padding)`. -/
def actionable4 (s : List Char) : Bool :=
  existsMatchPos (fun prev t =>
    boundaryBefore prev &&
    SIZE_ADJS.any (fun w => w.isPrefixOf t &&
      wsThenK (t.drop w.length) (fun r => STYLE_NOUNS.any (·.isPrefixOf r)))) s

/-- The change adjectives of actionable pattern 5. -/
def CHANGE_ADJS : List (List Char) :=
  ["darker", "lighter", "different", "another", "new"].map String.toList

/-- The style nouns of actionable pattern 5. -/
def STYLE_NOUNS2 : List (List Char) :=
  ["shade", "color", "style", "theme"].map String.toList

/-- Actionable pattern 5: style-change phrasing,
regex `\bto\s+(a\s+)?(darker|lighter|different|another|new)\s+(shade|color|style|theme)`. -/
def actionable5 (s : List Char) : Bool :=
  existsMatchPos (fun prev t =>
    boundaryBefore prev && "to".toList.isPrefixOf t &&
    wsThenK (t.drop 2) (fun t1 =>
      optLitWs "a".toList t1 (fun t2 =>
        CHANGE_ADJS.any (fun w => w.isPrefixOf t2 &&
          wsThenK (t2.drop w.length) (fun r => STYLE_NOUNS2.any (·.isPrefixOf r)))))) s

/-- Apostrophe character (codepoint 39), used by the contracted bug-report
phrases of actionable pattern 6. -/
def apos : Char := Char.ofNat 39

/-- The bug/issue indicators of actionable pattern 6 (the last two
alternatives are the contractions of "does not work" / "is not working"). -/
def BUG_WORDS : List (List Char) :=
  (["bug", "issue", "problem", "error", "broken", "wrong", "incorrect",
    "failing", "not working"].map String.toList) ++
  ["doesn".toList ++ [apos] ++ "t work".toList,
   "isn".toList ++ [apos] ++ "t working".toList]

/-- The fix verbs of actionable pattern 6. -/
def FIX_VERBS : List (List Char) :=
  ["fix", "solve", "resolve", "correct"].map String.toList

/-- Actionable pattern 6: bug report with fix intent,
regex `\b(bug|issue|...|isn't working)\b.*\b(fix|solve|resolve|correct)`. -/
def actionable6 (s : List Char) : Bool :=
  existsMatchPos (fun prev t =>
    boundaryBefore prev &&
    BUG_WORDS.any (fun w => w.isPrefixOf t && boundaryAfterAt (t.drop w.length) &&
      dotStarBndAlt FIX_VERBS (some (w.getLastD ' ')) (t.drop w.length))) s

/-- The creation verbs of actionable pattern 7. -/
def CREATE_VERBS : List (List Char) :=
  ["add", "implement", "create"].map String.toList

/-- The feature nouns of actionable pattern 7. -/
def FEATURE_NOUNS : List (List Char) :=
  ["feature", "functionality", "capability", "option", "setting", "button",
   "component", "page", "endpoint", "api", "method", "function"].map String.toList

/-- Actionable pattern 7: feature requests,
regex `\b(add|implement|create)\s+(a\s+)?(new\s+)?(feature|...|function)`. -/
def actionable7 (s : List Char) : Bool :=
  existsMatchPos (fun prev t =>
    boundaryBefore prev &&
    CREATE_VERBS.any (fun w => w.isPrefixOf t &&
      wsThenK (t.drop w.length) (fun t1 =>
        optLitWs "a".toList t1 (fun t2 =>
          optLitWs "new".toList t2 (fun t3 =>
            FEATURE_NOUNS.any (·.isPrefixOf t3)))))) s

/-- `ACTIONABLE_PATTERNS` of `classify-request` in order. -/
def ACTIONABLE_PATTERNS : List (List Char → Bool) :=
  [actionable1, actionable2, actionable3, actionable4, actionable5,
   actionable6, actionable7]

/-- The question-word openers of informational pattern 1. -/
def QUESTION_WORDS : List (List Char) :=
  ["what", "where", "when", "why", "how", "which", "who", "whose"].map String.toList

/-- The action verbs excluded by the negative lookahead of informational
pattern 1 (plain substrings inside the lookahead, no word boundaries). -/
def I1_BLOCK : List (List Char) :=
  ["change", "update", "fix", "add", "remove", "delete", "modify", "replace",
   "create", "implement"].map String.toList

/-- Informational pattern 1: question words without action verbs,
regex `^(what|where|when|why|how|which|who|whose)\s+(?!.*(change|...|implement))`.
The anchored `\s+` may take any k ≥ 1 of the leading whitespace characters
(backtracking); the lookahead at the resulting position fails iff one of the
excluded verbs occurs in the first line of the remainder (the `.*` inside the
lookahead cannot cross a newline and the verbs contain none). -/
def informational1 (s : List Char) : Bool :=
  QUESTION_WORDS.any fun q =>
    q.isPrefixOf s &&
    ((List.range ((s.drop q.length).takeWhile Char.isWhitespace).length).any fun i =>
      !(I1_BLOCK.any fun w => containsSub w (firstLine ((s.drop q.length).drop (i + 1)))))

/-- The explanation-request phrases of informational pattern 2. -/
def EXPLAIN_WORDS : List (List Char) :=
  ["explain", "describe", "tell me about", "what does", "how does",
   "show me how", "walk me through", "guide me", "teach me"].map String.toList

/-- Informational pattern 2: explanation requests,
regex `\b(explain|describe|tell me about|...|teach me)\b`. -/
def informational2 (s : List Char) : Bool := hasWordAlt EXPLAIN_WORDS s

/-- The analysis verbs of informational pattern 3. -/
def ANALYZE_WORDS : List (List Char) :=
  ["analyze", "review", "check", "inspect", "look at", "examine", "evaluate",
   "assess"].map String.toList

/-- The modification verbs excluded by the lookahead of informational
pattern 3. -/
def I3_VERBS : List (List Char) :=
  ["fix", "change", "update", "modify"].map String.toList

/-- The `and\s+(fix|change|update|modify)` body of the negative lookahead of
informational pattern 3, searched through `.*` (non-newline) from a given
position; the `\s+` inside may cross newlines. -/
def andWsVerb (rem : List Char) : Bool :=
  dotStarPred (fun t => "and".toList.isPrefixOf t &&
    wsThenK (t.drop 3) (fun r => I3_VERBS.any (·.isPrefixOf r))) rem

/-- Informational pattern 3: analysis requests without modification,
regex `\b(analyze|review|check|...|assess)\b(?!.*(and\s+(fix|change|update|modify)))`. -/
def informational3 (s : List Char) : Bool :=
  existsMatchPos (fun prev t =>
    boundaryBefore prev &&
    ANALYZE_WORDS.any (fun w => w.isPrefixOf t && boundaryAfterAt (t.drop w.length) &&
      !(andWsVerb (t.drop w.length)))) s

/-- The documentation nouns of informational pattern 4 (`comments?` expands
to the two alternatives `comment` and `comments`). -/
def DOC_WORDS : List (List Char) :=
  ["document", "documentation", "docs", "readme", "comment", "comments",
   "explanation"].map String.toList

/-- The verbs excluded by the lookahead of informational pattern 4. -/
def I4_BLOCK : List (List Char) :=
  ["update", "add", "write", "create"].map String.toList

/-- Informational pattern 4: documentation requests,
regex `\b(document|documentation|docs|readme|comments?|explanation)\b(?!.*(update|add|write|create))`. -/
def informational4 (s : List Char) : Bool :=
  existsMatchPos (fun prev t =>
    boundaryBefore prev &&
    DOC_WORDS.any (fun w => w.isPrefixOf t && boundaryAfterAt (t.drop w.length) &&
      !(I4_BLOCK.any fun b => containsSub b (firstLine (t.drop w.length))))) s

/-- The understanding-request phrases of informational pattern 5. -/
def UNDERSTAND_WORDS : List (List Char) :=
  ["understand", "clarify", "meaning of", "purpose of", "reason for"].map String.toList

/-- Informational pattern 5: understanding requests,
regex `\b(understand|clarify|meaning of|purpose of|reason for)\b`. -/
def informational5 (s : List Char) : Bool := hasWordAlt UNDERSTAND_WORDS s

/-- `INFORMATIONAL_PATTERNS` of `classify-request` in order. -/
def INFORMATIONAL_PATTERNS : List (List Char → Bool) :=
  [informational1, informational2, informational3, informational4, informational5]

/-- The classifier verdict (`"actionable" | "informational"`). -/
inductive RequestType
  | actionable
  | informational
deriving DecidableEq, Repr

/-- `classifyRequest` (classify-request lines 57-86): trim; inputs shorter
than 10 characters are informational; the loop over the informational
patterns returns `informational` at the first informational match only when
no actionable pattern matches at all (the per-iteration double-check is the
same test each time), then the loop over the actionable patterns returns
`actionable` at the first match; the default is `informational`.  The `/i`
flags are modelled by matching the lower-cased text against lower-cased
patterns. -/
def classifyRequest (text : List Char) : RequestType :=
  if (trimList text).length < 10 then .informational
  else if (INFORMATIONAL_PATTERNS.any fun p => p (toLowerList (trimList text))) &&
          !(ACTIONABLE_PATTERNS.any fun p => p (toLowerList (trimList text))) then
    .informational
  else if ACTIONABLE_PATTERNS.any fun p => p (toLowerList (trimList text)) then
    .actionable
  else .informational

/-- C6 counterexample: the input `fix bug` matches an actionable pattern
(the direct action verb `fix`), yet `classifyRequest` returns
`informational`, because its trimmed length (7) is below the short-input
cutoff of 10 — refuting the claim that every input matching an actionable
pattern is classified `actionable`. -/
theorem classify_short_actionable_counterexample :
    classifyRequest "fix bug".toList = .informational ∧
    ACTIONABLE_PATTERNS.any (fun p => p (toLowerList (trimList "fix bug".toList))) = true := by
  constructor <;> decide

/-- C6 (amended): for inputs whose trimmed length is at least 10,
`classifyRequest` returns `actionable` exactly when at least one actionable
pattern matches, regardless of co-occurring informational matches; inputs
with trimmed length below 10 are always `informational`, even when an
actionable pattern matches. -/
theorem classify_actionable_precedence :
    (∀ text : List Char, 10 ≤ (trimList text).length →
      ((ACTIONABLE_PATTERNS.any fun p => p (toLowerList (trimList text))) = true →
        classifyRequest text = .actionable) ∧
      (classifyRequest text = .actionable →
        (ACTIONABLE_PATTERNS.any fun p => p (toLowerList (trimList text))) = true)) ∧
    (∀ text : List Char, (trimList text).length < 10 →
      classifyRequest text = .informational) := by
  constructor
  · intro text hlen
    constructor
    · intro hact
      unfold classifyRequest
      rw [if_neg (by omega)]
      simp [hact]
    · intro hcl
      by_cases hact : (ACTIONABLE_PATTERNS.any fun p => p (toLowerList (trimList text))) = true
      · exact hact
      · exfalso
        unfold classifyRequest at hcl
        rw [if_neg (by omega)] at hcl
        simp only [Bool.not_eq_true] at hact
        simp [hact] at hcl
  · intro text hlen
    unfold classifyRequest
    rw [if_pos hlen]

theorem classify_actionable_precedence_witness :
    classifyRequest "please fix the login bug".toList = .actionable ∧
    classifyRequest "add docs".toList = .informational :=
  ⟨(classify_actionable_precedence.1 "please fix the login bug".toList (by decide)).1
      (by decide),
   classify_actionable_precedence.2 "add docs".toList (by decide)⟩

/- ===================== TagMode.prepareContext: trigger scan and request extraction ===================== -/

/-- Helper for `splitGo`: prepend a character that did not start a separator
occurrence to the current (first) segment. -/
def consSeg (c : Char) : List (List Char) → List (List Char)
  | [] => [[c]]
  | l :: ls => (c :: l) :: ls

/-- Left-to-right non-overlapping splitting on a non-empty separator,
the semantics of JavaScript `String.prototype.split` with a string
separator: at each position, if the separator is a prefix, close the current
segment and skip the separator; otherwise the character joins the current
segment. -/
def splitGo (p : List Char) : List Char → List (List Char)
  | [] => [[]]
  | c :: rest =>
    if p.isPrefixOf (c :: rest) then
      [] :: splitGo p (List.drop (p.length - 1) rest)
    else consSeg c (splitGo p rest)
termination_by l => l.length
decreasing_by
  · simp only [List.length_drop, List.length_cons]
    omega
  · simp

/-- JavaScript `text.split(p)`: the empty separator splits into single
characters, a non-empty separator splits on its occurrences. -/
def splitOnSub (p s : List Char) : List (List Char) :=
  if p.isEmpty then s.map (fun c => [c]) else splitGo p s

/-- The request-extraction idiom of `TagMode.prepareContext`
(`text.split(triggerPhrase)[1]?.trim() || dflt`, used at the description
site with default `Please review this pull request` and at the comment site
with default `Please help with this PR`): the element at index 1 of the
split — the text between the first and second separator occurrences, or
after the first occurrence if it is the only one — trimmed, with the default
substituted when the element is absent or trims to the empty string. -/
def extractUserRequest (phrase text dflt : List Char) : List Char :=
  match (splitOnSub phrase text)[1]? with
  | none => dflt
  | some seg => if (trimList seg).isEmpty then dflt else trimList seg

theorem splitGo_ne_nil (p : List Char) : ∀ s, splitGo p s ≠ [] := by
  intro s
  induction s using splitGo.induct p with
  | case1 => simp [splitGo]
  | case2 c rest hpre ih =>
    rw [splitGo, if_pos hpre]
    simp
  | case3 c rest hpre ih =>
    rw [splitGo, if_neg hpre]
    cases h : splitGo p rest with
    | nil => exact absurd h ih
    | cons l ls => simp [consSeg]

theorem splitGo_no_head (p : List Char) (h : Char) (hps : p.head? = some h) :
    ∀ s : List Char, h ∉ s → splitGo p s = [s] := by
  intro s
  induction s with
  | nil => simp [splitGo]
  | cons c rest ih =>
    intro hmem
    have hhc : h ≠ c := fun he => hmem (he ▸ List.mem_cons_self c rest)
    have hnp : ¬ p.isPrefixOf (c :: rest) = true := by
      cases p with
      | nil => simp at hps
      | cons ph pt =>
        have : ph = h := by simpa using hps
        subst this
        simp [List.isPrefixOf]
        intro hc
        exact absurd hc hhc
    rw [splitGo, if_neg hnp, ih (fun hm => hmem (List.mem_cons_of_mem c hm))]
    rfl

theorem splitGo_match (p : List Char) (h : Char) (hps : p.head? = some h) :
    ∀ (a r : List Char), h ∉ a → splitGo p (a ++ p ++ r) = a :: splitGo p r := by
  intro a
  induction a with
  | nil =>
    intro r _
    cases p with
    | nil => simp at hps
    | cons ph pt =>
      have hpre : (ph :: pt).isPrefixOf (ph :: (pt ++ r)) = true := by
        rw [List.isPrefixOf_iff_prefix]
        have hsh : ph :: (pt ++ r) = (ph :: pt) ++ r := by simp
        rw [hsh]
        exact List.prefix_append _ _
      have expand : ([] : List Char) ++ (ph :: pt) ++ r = ph :: (pt ++ r) := by simp
      rw [expand, splitGo, if_pos hpre]
      have hdrop : List.drop ((ph :: pt).length - 1) (pt ++ r) = r := by
        have hdl := List.drop_left pt r
        simp [hdl]
      rw [hdrop]
  | cons c a' ih =>
    intro r hmem
    have hhc : h ≠ c := fun he => hmem (he ▸ List.mem_cons_self c a')
    have hnp : ¬ p.isPrefixOf (c :: (a' ++ p ++ r)) = true := by
      cases p with
      | nil => simp at hps
      | cons ph pt =>
        have : ph = h := by simpa using hps
        subst this
        simp [List.isPrefixOf]
        intro hc
        exact absurd hc hhc
    have expand : (c :: a') ++ p ++ r = c :: (a' ++ p ++ r) := by simp
    rw [expand, splitGo, if_neg hnp,
      ih r (fun hm => hmem (List.mem_cons_of_mem c hm))]
    rfl

theorem trimList_all_ws (w : List Char) (h : ∀ x ∈ w, x.isWhitespace) :
    trimList w = [] := by
  unfold trimList
  rw [List.dropWhile_eq_nil_iff.mpr h]
  simp

/-- C10: Tag-mode request extraction takes the second element of the
JavaScript split on the trigger phrase.  When the text contains the phrase
twice (text = a ++ p ++ b ++ p ++ c, the occurrences made unambiguous by
requiring the phrase head character to be absent from a and b), the
extracted request is the trimmed text strictly between the first and second
occurrences — everything after the second occurrence is discarded — with the
fixed default substituted when that segment trims to the empty string; and
when the text after a sole occurrence is all whitespace, the default is
substituted as well. -/
theorem extract_second_segment :
    (∀ (p a b c dflt : List Char) (h : Char), p.head? = some h →
      h ∉ a → h ∉ b →
      extractUserRequest p (a ++ p ++ b ++ p ++ c) dflt =
        (if (trimList b).isEmpty then dflt else trimList b)) ∧
    (∀ (p a w dflt : List Char) (h : Char), p.head? = some h →
      h ∉ a → h ∉ w → (∀ x ∈ w, x.isWhitespace) →
      extractUserRequest p (a ++ p ++ w) dflt = dflt) := by
  have hnonempty : ∀ (p : List Char) (h : Char), p.head? = some h → p.isEmpty = false := by
    intro p h hps
    cases p with
    | nil => simp at hps
    | cons x xs => rfl
  constructor
  · intro p a b c dflt h hps ha hb
    have hsplit : splitOnSub p (a ++ p ++ b ++ p ++ c) = a :: b :: splitGo p c := by
      unfold splitOnSub
      rw [if_neg (by simp [hnonempty p h hps])]
      have hassoc : a ++ p ++ b ++ p ++ c = a ++ p ++ (b ++ p ++ c) := by simp
      rw [hassoc, splitGo_match p h hps a (b ++ p ++ c) ha,
        splitGo_match p h hps b c hb]
    unfold extractUserRequest
    rw [hsplit]
    simp
  · intro p a w dflt h hps ha hw hws
    have hsplit : splitOnSub p (a ++ p ++ w) = [a, w] := by
      unfold splitOnSub
      rw [if_neg (by simp [hnonempty p h hps])]
      rw [splitGo_match p h hps a w ha, splitGo_no_head p h hps w hw]
    unfold extractUserRequest
    rw [hsplit]
    simp [trimList_all_ws w hws]

theorem extract_second_segment_witness :
    extractUserRequest "@claude".toList
        ("hey ".toList ++ "@claude".toList ++ " do this ".toList ++
         "@claude".toList ++ " and more".toList) "dflt".toList =
      "do this".toList ∧
    extractUserRequest "@claude".toList
        ("hey ".toList ++ "@claude".toList ++ "  ".toList) "dflt".toList =
      "dflt".toList := by
  constructor
  · have := extract_second_segment.1 "@claude".toList "hey ".toList " do this ".toList
      " and more".toList "dflt".toList (Char.ofNat 64) (by decide) (by decide) (by decide)
    rw [this]
    decide
  · exact extract_second_segment.2 "@claude".toList "hey ".toList "  ".toList
      "dflt".toList (Char.ofNat 64) (by decide) (by decide) (by decide) (by decide)

theorem extract_prefix_occurrence (p rest dflt : List Char) (h : Char)
    (hps : p.head? = some h) (hrest : h ∉ rest) :
    extractUserRequest p (p ++ rest) dflt =
      if (trimList rest).isEmpty then dflt else trimList rest := by
  have hne : p.isEmpty = false := by
    cases p with
    | nil => simp at hps
    | cons x xs => rfl
  have hsplit : splitOnSub p (p ++ rest) = [[], rest] := by
    unfold splitOnSub
    rw [if_neg (by simp [hne])]
    have hsh : p ++ rest = [] ++ p ++ rest := by simp
    rw [hsh, splitGo_match p h hps [] rest (by simp),
      splitGo_no_head p h hps rest hrest]
  unfold extractUserRequest
  rw [hsplit]
  simp

/-- The edit-capable tool set selected for `actionable` requests
(`TagMode.prepareContext` line 556). -/
def EDIT_TOOLS : List String :=
  ["Read", "Edit", "Write", "Grep", "MultiEdit", "Bash", "LS", "Glob"]

/-- The tools blocked alongside the edit-capable set (line 557). -/
def EDIT_BLOCKED : List String := ["Computer"]

/-- The read-only tool set selected for `informational` requests (line 561). -/
def READONLY_TOOLS : List String := ["Read", "Grep"]

/-- The tools blocked alongside the read-only set (line 562). -/
def READONLY_BLOCKED : List String := ["Write", "Edit", "MultiEdit", "Computer"]

/-- The tool-selection block at the end of `TagMode.prepareContext`
(lines 546-565): start from the configured `allowedTools`/`blockedTools`;
when no `allowedTools` is configured, a user request was extracted
(non-empty) and auto-detection is enabled, the classifier chooses between
the edit-capable and the read-only tool sets. -/
def selectTools (configAllowedTools configBlockedTools : Option (List String))
    (userRequest : List Char) (autoDetectActionable : Bool) :
    Option (List String) × Option (List String) :=
  if configAllowedTools.isNone && !userRequest.isEmpty && autoDetectActionable then
    match classifyRequest userRequest with
    | .actionable => (some EDIT_TOOLS, some EDIT_BLOCKED)
    | .informational => (some READONLY_TOOLS, some READONLY_BLOCKED)
  else (configAllowedTools, configBlockedTools)

/-- C7: classifier-driven tool selection in Tag mode.  A configured
`allowedTools` is used as-is; otherwise, with a non-empty extracted request
and auto-detection enabled, an `actionable` classification selects the
edit-capable set (blocking computer control) and an `informational`
classification the read-only set (blocking the edit tools).  In particular,
for the comment `@claude please fix the null check on line 42` with trigger
phrase `@claude`, the extracted classifier input is
`please fix the null check on line 42`, it is classified `actionable`, and
the selected tools include Edit, Write and MultiEdit and exclude (and
block) Computer. -/
theorem tag_tool_selection :
    (∀ (ts : List String) (bt : Option (List String)) (req : List Char) (ad : Bool),
      selectTools (some ts) bt req ad = (some ts, bt)) ∧
    (∀ (bt : Option (List String)) (req : List Char), req ≠ [] →
      classifyRequest req = .actionable →
      selectTools none bt req true = (some EDIT_TOOLS, some EDIT_BLOCKED)) ∧
    (∀ (bt : Option (List String)) (req : List Char), req ≠ [] →
      classifyRequest req = .informational →
      selectTools none bt req true = (some READONLY_TOOLS, some READONLY_BLOCKED)) ∧
    (extractUserRequest "@claude".toList
        "@claude please fix the null check on line 42".toList
        "Please help with this PR".toList =
      "please fix the null check on line 42".toList ∧
     classifyRequest "please fix the null check on line 42".toList = .actionable ∧
     selectTools none none "please fix the null check on line 42".toList true =
       (some EDIT_TOOLS, some EDIT_BLOCKED) ∧
     "Edit" ∈ EDIT_TOOLS ∧ "Write" ∈ EDIT_TOOLS ∧ "MultiEdit" ∈ EDIT_TOOLS ∧
     "Computer" ∉ EDIT_TOOLS ∧ "Computer" ∈ EDIT_BLOCKED) := by
  refine ⟨?_, ?_, ?_, ?_⟩
  · intro ts bt req ad
    simp [selectTools]
  · intro bt req hreq hcl
    unfold selectTools
    rw [if_pos (by simp [hreq])]
    rw [hcl]
  · intro bt req hreq hcl
    unfold selectTools
    rw [if_pos (by simp [hreq])]
    rw [hcl]
  · refine ⟨?_, by decide, ?_, by decide, by decide, by decide, by decide, by decide⟩
    · have hsh : "@claude please fix the null check on line 42".toList =
          "@claude".toList ++ " please fix the null check on line 42".toList := by decide
      rw [hsh, extract_prefix_occurrence "@claude".toList
        " please fix the null check on line 42".toList "Please help with this PR".toList
        (Char.ofNat 64) (by decide) (by decide)]
      decide
    · unfold selectTools
      rw [if_pos (by decide)]
      rw [show classifyRequest "please fix the null check on line 42".toList = .actionable
        from by decide]

theorem tag_tool_selection_witness :
    selectTools (some ["Read"]) none "anything at all".toList true =
      (some ["Read"], none) ∧
    selectTools none none "please fix the null check on line 42".toList true =
      (some EDIT_TOOLS, some EDIT_BLOCKED) ∧
    selectTools none none "what does the parser module do".toList true =
      (some READONLY_TOOLS, some READONLY_BLOCKED) :=
  ⟨tag_tool_selection.1 ["Read"] none "anything at all".toList true,
   tag_tool_selection.2.1 none "please fix the null check on line 42".toList
     (by decide) (by decide),
   tag_tool_selection.2.2.1 none "what does the parser module do".toList
     (by decide) (by decide)⟩

/-- Trigger source classification (`"description" | "comment" | "commit"`). -/
inductive TriggerSource
  | description
  | comment
  | commit
deriving DecidableEq, Repr

/-- The `inline` record of a Bitbucket PR comment: file path and line range
(`from`/`to` are nullable; named `lineFrom`/`lineTo` here since `from` is a
Lean keyword). -/
structure InlineRec where
  path : List Char
  lineFrom : Option Nat
  lineTo : Option Nat
deriving DecidableEq, Repr

/-- A PR comment as consumed by the scan: id, raw text
(`comment.content?.raw || ""`), optional inline anchor. -/
structure PRComment where
  id : Nat
  raw : List Char
  inline : Option InlineRec
deriving DecidableEq, Repr

/-- The captured inline-comment anchor
(`inlineContext = \x7b path, from, to || from \x7d`). -/
structure InlineAnchor where
  path : List Char
  lineFrom : Option Nat
  lineTo : Option Nat
deriving DecidableEq, Repr

/-- JavaScript `a || b` on nullable numbers: `b` when `a` is absent or `0`
(both falsy). -/
def jsOrNat (a b : Option Nat) : Option Nat :=
  match a with
  | some n => if n = 0 then b else some n
  | none => b

/-- The outputs of the trigger scan of `TagMode.prepareContext`. -/
structure TagScanResult where
  triggerSource : Option TriggerSource
  userRequest : List Char
  commentId : Option Nat
  inlineContext : Option InlineAnchor
  parentCommentId : Option Nat
deriving DecidableEq, Repr

/-- Default request when the trigger phrase heads the PR description but
nothing follows it (line 395). -/
def DESCRIPTION_DEFAULT : List Char := "Please review this pull request".toList

/-- Default request when the trigger phrase heads a comment but nothing
follows it (line 438). -/
def COMMENT_DEFAULT : List Char := "Please help with this PR".toList

/-- Default request when no phrase-bearing artifact exists (line 451). -/
def NO_TRIGGER_DEFAULT : List Char :=
  "Please review this pull request and provide feedback".toList

/-- The per-comment test of the scan loop (line 413):
`content && content.includes(triggerPhrase)`. -/
def commentMatches (phrase : List Char) (c : PRComment) : Bool :=
  !c.raw.isEmpty && containsSub phrase c.raw

/-- The inline anchor captured from a matching inline comment (lines
419-423): path, `from`, and `to || from`. -/
def capturedAnchor (inl : InlineRec) : InlineAnchor :=
  ⟨inl.path, inl.lineFrom, jsOrNat inl.lineTo inl.lineFrom⟩

/-- The trigger scan of `TagMode.prepareContext` in the PR branch (lines
384-452): (1) if the PR description contains the trigger phrase, record
source `description` and extract the request from the description;
(2) when an access token is present, walk the comments from newest to
oldest (`for i = comments.length-1; i >= 0; i--` with `break` on first
match, modelled as `find?` on the reversed list) and on the first match
overwrite source to `comment`, record the comment id as `commentId` and as
the reply parent, capture the inline anchor when the comment is inline, and
extract the request from the comment text; (3) if no request was extracted
anywhere, fall back to the generic review request. -/
def tagScan (phrase description : List Char) (hasToken : Bool)
    (comments : List PRComment) : TagScanResult :=
  let st0 : TagScanResult := ⟨none, [], none, none, none⟩
  let st1 := if containsSub phrase description then
      { st0 with
          triggerSource := some .description,
          userRequest := extractUserRequest phrase description DESCRIPTION_DEFAULT }
    else st0
  let st2 := if hasToken then
      match comments.reverse.find? (commentMatches phrase) with
      | some c =>
        { st1 with
            triggerSource := some .comment,
            commentId := some c.id,
            parentCommentId := some c.id,
            inlineContext := match c.inline with
              | some inl => some (capturedAnchor inl)
              | none => st1.inlineContext,
            userRequest := extractUserRequest phrase c.raw COMMENT_DEFAULT }
      | none => st1
    else st1
  if st2.userRequest.isEmpty then { st2 with userRequest := NO_TRIGGER_DEFAULT }
  else st2

theorem extractUserRequest_ne_nil (phrase text dflt : List Char) (hd : dflt ≠ []) :
    extractUserRequest phrase text dflt ≠ [] := by
  unfold extractUserRequest
  cases (splitOnSub phrase text)[1]? with
  | none => simpa using hd
  | some seg =>
    by_cases hts : (trimList seg).isEmpty
    · simpa [hts] using hd
    · simpa [hts] using (by simpa using hts : ¬ trimList seg = [])

theorem find?_append_none {α : Type} (p : α → Bool) (l1 l2 : List α)
    (h : ∀ x ∈ l1, p x = false) : (l1 ++ l2).find? p = l2.find? p := by
  induction l1 with
  | nil => rfl
  | cons a l ih =>
    rw [List.cons_append, List.find?_cons_of_neg _ (by simp [h a (List.mem_cons_self a l)]),
      ih (fun x hx => h x (List.mem_cons_of_mem a hx))]

theorem isEmpty_false_of_ne_nil {α : Type} (l : List α) (h : l ≠ []) :
    l.isEmpty = false := by
  cases l with
  | nil => exact absurd rfl h
  | cons a t => rfl

theorem tagScan_found (phrase description : List Char) (comments : List PRComment)
    (c : PRComment)
    (hfind : comments.reverse.find? (commentMatches phrase) = some c) :
    tagScan phrase description true comments =
      { triggerSource := some .comment,
        userRequest := extractUserRequest phrase c.raw COMMENT_DEFAULT,
        commentId := some c.id,
        inlineContext := match c.inline with
          | some inl => some (capturedAnchor inl)
          | none => none,
        parentCommentId := some c.id } := by
  have hreq : (extractUserRequest phrase c.raw COMMENT_DEFAULT).isEmpty = false :=
    isEmpty_false_of_ne_nil _ (extractUserRequest_ne_nil _ _ _ (by decide))
  simp only [tagScan, hfind]
  by_cases hd : containsSub phrase description = true
  · cases hinl : c.inline <;> simp [hd, hinl, hreq]
  · cases hinl : c.inline <;> simp [hd, hinl, hreq]

/-- C5: tag-mode trigger scan order.  (a) The PR description is scanned
first: when it contains the trigger phrase and no comment matches (or no
comment scan happens), the trigger source is `description` and the request
is extracted from the description.  (b) Comments are then scanned from
newest to oldest with the first match winning: the newest matching comment
sets source `comment`, its id becomes both `commentId` and the
reply-threading parent, its inline anchor (path and line range) is captured
exactly when it is an inline comment, and the request is extracted from its
text.  (c) In particular, of three comments containing the trigger phrase,
the text following the phrase in the most recent one is selected, not the
first. -/
theorem tag_scan_order :
    (∀ (phrase description : List Char) (hasToken : Bool) (comments : List PRComment),
      containsSub phrase description = true →
      (∀ c ∈ comments, commentMatches phrase c = false) →
      (tagScan phrase description hasToken comments).triggerSource =
          some .description ∧
      (tagScan phrase description hasToken comments).userRequest =
          extractUserRequest phrase description DESCRIPTION_DEFAULT) ∧
    (∀ (phrase description : List Char) (pre post : List PRComment) (c : PRComment),
      commentMatches phrase c = true →
      (∀ d ∈ post, commentMatches phrase d = false) →
      tagScan phrase description true (pre ++ c :: post) =
        { triggerSource := some .comment,
          userRequest := extractUserRequest phrase c.raw COMMENT_DEFAULT,
          commentId := some c.id,
          inlineContext := match c.inline with
            | some inl => some (capturedAnchor inl)
            | none => none,
          parentCommentId := some c.id }) ∧
    (∀ (phrase description : List Char) (c1 c2 c3 : PRComment),
      commentMatches phrase c3 = true →
      (tagScan phrase description true [c1, c2, c3]).userRequest =
          extractUserRequest phrase c3.raw COMMENT_DEFAULT ∧
      (tagScan phrase description true [c1, c2, c3]).commentId = some c3.id) := by
  have part_b : ∀ (phrase description : List Char) (pre post : List PRComment)
      (c : PRComment),
      commentMatches phrase c = true →
      (∀ d ∈ post, commentMatches phrase d = false) →
      tagScan phrase description true (pre ++ c :: post) =
        { triggerSource := some .comment,
          userRequest := extractUserRequest phrase c.raw COMMENT_DEFAULT,
          commentId := some c.id,
          inlineContext := match c.inline with
            | some inl => some (capturedAnchor inl)
            | none => none,
          parentCommentId := some c.id } := by
    intro phrase description pre post c hc hpost
    have hfind : (pre ++ c :: post).reverse.find? (commentMatches phrase) = some c := by
      rw [List.reverse_append, List.reverse_cons, List.append_assoc]
      rw [find?_append_none _ _ _ (fun x hx => hpost x (List.mem_reverse.mp hx))]
      simp [List.find?_cons_of_pos _ hc]
    exact tagScan_found phrase description (pre ++ c :: post) c hfind
  refine ⟨?_, part_b, ?_⟩
  · intro phrase description hasToken comments hd hnone
    have hfind : comments.reverse.find? (commentMatches phrase) = none :=
      List.find?_eq_none.mpr (fun x hx => by
        simp [hnone x (List.mem_reverse.mp hx)])
    have hreq : (extractUserRequest phrase description DESCRIPTION_DEFAULT).isEmpty =
        false :=
      isEmpty_false_of_ne_nil _ (extractUserRequest_ne_nil _ _ _ (by decide))
    cases hasToken <;> simp only [tagScan, hfind, hd, if_true] <;> simp [hreq]
  · intro phrase description c1 c2 c3 h3
    have hb := part_b phrase description [c1, c2] [] c3 h3 (by simp)
    have hcomments : [c1, c2] ++ c3 :: [] = [c1, c2, c3] := rfl
    rw [hcomments] at hb
    rw [hb]
    exact ⟨rfl, rfl⟩

theorem tag_scan_order_witness :
    (tagScan "@claude".toList "@claude check this".toList false []).triggerSource =
        some .description ∧
    (tagScan "@claude".toList "desc".toList true
        [⟨1, "@claude first".toList, none⟩, ⟨2, "@claude second".toList, none⟩,
         ⟨3, "@claude third".toList, none⟩]).userRequest =
      extractUserRequest "@claude".toList "@claude third".toList COMMENT_DEFAULT ∧
    (tagScan "@claude".toList "desc".toList true
        [⟨1, "@claude first".toList, none⟩, ⟨2, "@claude second".toList, none⟩,
         ⟨3, "@claude third".toList, none⟩]).commentId = some 3 :=
  ⟨(tag_scan_order.1 "@claude".toList "@claude check this".toList false []
      (by decide) (by simp)).1,
   (tag_scan_order.2.2 "@claude".toList "desc".toList
      ⟨1, "@claude first".toList, none⟩ ⟨2, "@claude second".toList, none⟩
      ⟨3, "@claude third".toList, none⟩ (by decide)).1,
   (tag_scan_order.2.2 "@claude".toList "desc".toList
      ⟨1, "@claude first".toList, none⟩ ⟨2, "@claude second".toList, none⟩
      ⟨3, "@claude third".toList, none⟩ (by decide)).2⟩

/- ===================== updateCommentStream: formatting, routing and the final update ===================== -/

/-- The outward effect of one `updateCommentStream` call: an inline PR
comment, a top-level PR comment, console output (unauthenticated final), a
partial suppressed by the throttle, or a partial silently dropped in
unauthenticated mode. -/
inductive UpdateAction
  | postInline (formatted : List Char)
  | postTopLevel (formatted : List Char)
  | consoleOutput (formatted : List Char)
  | droppedByThrottle
  | droppedConsole
deriving DecidableEq, Repr

/-- The in-progress banner of partial updates. -/
def CLAUDE_RESPONDING : List Char := "**Claude is responding...**".toList

/-- Formatting of a partial update (comment-stream.ts lines 36-43):
the in-progress banner, with the content appended when it is non-blank. -/
def formatPartialContent (content : List Char) : List Char :=
  if content.isEmpty || (trimList content).isEmpty then CLAUDE_RESPONDING
  else CLAUDE_RESPONDING ++ "\n\n".toList ++ content

/-- The status banner of a final update (line 46): the chained ternary maps
`success` to COMPLETED, `error` to FAILED and anything else — including an
absent status — to TIMED OUT. -/
def statusText (status : Option RunStatus) : List Char :=
  match status with
  | some .success => "[COMPLETED]".toList
  | some .error => "[FAILED]".toList
  | _ => "[TIMED OUT]".toList

/-- The interpolation of `status` in the final footer (absent prints
`undefined`). -/
def statusName (status : Option RunStatus) : List Char :=
  match status with
  | some .success => "success".toList
  | some .error => "error".toList
  | some .timeout => "timeout".toList
  | none => "undefined".toList

/-- Formatting of a final update (line 48): heading with status banner, the
content (or a placeholder when empty), and the trailing status footer. -/
def formatFinalContent (status : Option RunStatus) (content : List Char) : List Char :=
  "## Claude Response ".toList ++ statusText status ++ "\n\n".toList ++
  (if content.isEmpty then "No response generated".toList else content) ++
  "\n\n---\n*Status: ".toList ++ statusName status ++ "*".toList

/-- `updateCommentStream` (comment-stream.ts lines 23-88) as a function of
the throttle state: throttle check first (`interim` is the `isPartial`
flag), then formatting, then routing — inline comment when an inline anchor
is present, top-level comment otherwise, console output for unauthenticated
final updates, silent drop for unauthenticated partials.  Returns the
action and the new `lastUpdateTime`. -/
def updateCommentStream (lastUpdateTime now : Nat) (hasToken : Bool)
    (content : List Char) (interim : Bool) (status : Option RunStatus)
    (inline : Option InlineAnchor) : UpdateAction × Nat :=
  let th := throttleStep lastUpdateTime ⟨now, interim⟩
  if th.1 then
    let formatted := if interim then formatPartialContent content
                     else formatFinalContent status content
    (if hasToken then
       match inline with
       | some _ => .postInline formatted
       | none => .postTopLevel formatted
     else if interim then .droppedConsole
     else .consoleOutput formatted,
     th.2)
  else (.droppedByThrottle, th.2)

/-- The final-update decision at the end of `runClaudeCode` (runner.ts
lines 1061-1073): one final (non-partial) update is pushed only when a PR
id is present, a Bitbucket access token is configured, the accumulated
content is non-empty, and the comment-update strategy is not `stream`;
otherwise no final update happens at all. -/
def runnerFinalUpdate (prId : Option Nat) (hasToken : Bool)
    (currentContent : List Char) (commentUpdateStrategy : List Char)
    (status : RunStatus) (lastUpdateTime now : Nat)
    (inline : Option InlineAnchor) : Option (UpdateAction × Nat) :=
  if prId.isSome && hasToken && !currentContent.isEmpty &&
      !(commentUpdateStrategy == "stream".toList) then
    some (updateCommentStream lastUpdateTime now hasToken currentContent false
      (some status) inline)
  else none

/-- C4 counterexample: an unauthenticated run that ends in `success` with
accumulated text issues no final update at all — in particular no console
output, because `runClaudeCode` guards the final `updateCommentStream` call
on the Bitbucket access token, so the console fallback inside
`updateCommentStream` is unreachable for final updates; likewise a run whose
accumulated text is empty (e.g. a timeout before any output) issues none.
This refutes the claim that every terminal outcome produces exactly one
final update, posted to the PR or written to console output when
unauthenticated. -/
theorem final_update_unauthenticated_counterexample :
    runnerFinalUpdate (some 7) false "analysis complete".toList "both".toList
        .success 0 5000 none = none ∧
    runnerFinalUpdate (some 7) true [] "both".toList .timeout 0 5000 none = none := by
  constructor <;> rfl

/-- C4 (amended): a final (non-partial) update is issued exactly when a PR
id and a Bitbucket access token are configured, the accumulated text is
non-empty, and the comment-update strategy is not stream-only; when issued
it is never dropped by the throttle (whatever the throttle state), and it
carries the full accumulated text wrapped in a status banner, posted inline
when an inline anchor exists and as a top-level PR comment otherwise.
Unauthenticated runs issue no final update (console fallback unreachable),
and empty accumulated text issues none. -/
theorem final_update_issuance :
    (∀ (prId : Nat) (content strategy : List Char) (status : RunStatus)
        (last now : Nat) (inline : Option InlineAnchor),
      content ≠ [] → strategy ≠ "stream".toList →
      runnerFinalUpdate (some prId) true content strategy status last now inline =
        some ((match inline with
               | some _ => UpdateAction.postInline
                   (formatFinalContent (some status) content)
               | none => UpdateAction.postTopLevel
                   (formatFinalContent (some status) content)),
              now)) ∧
    (∀ (prId : Option Nat) (content strategy : List Char) (status : RunStatus)
        (last now : Nat) (inline : Option InlineAnchor),
      runnerFinalUpdate prId false content strategy status last now inline = none) ∧
    (∀ (last now : Nat) (hasToken : Bool) (content : List Char)
        (status : Option RunStatus) (inline : Option InlineAnchor),
      (updateCommentStream last now hasToken content false status inline).1 ≠
        .droppedByThrottle) := by
  refine ⟨?_, ?_, ?_⟩
  · intro prId content strategy status last now inline hcontent hstrategy
    have hc : content.isEmpty = false := isEmpty_false_of_ne_nil _ hcontent
    have hs : (strategy == "stream".toList) = false := by
      cases hb : strategy == "stream".toList
      · rfl
      · exact absurd (by simpa using hb) hstrategy
    unfold runnerFinalUpdate
    rw [if_pos (by simp [hc, hs]; exact hstrategy)]
    unfold updateCommentStream throttleStep
    cases inline <;> simp
  · intro prId content strategy status last now inline
    unfold runnerFinalUpdate
    rw [if_neg (by simp)]
  · intro last now hasToken content status inline
    unfold updateCommentStream throttleStep
    cases inline <;> cases hasToken <;> simp

theorem final_update_issuance_witness :
    runnerFinalUpdate (some 7) true "done".toList "both".toList .success 4999 5000
        none =
      some (UpdateAction.postTopLevel
        (formatFinalContent (some .success) "done".toList), 5000) ∧
    runnerFinalUpdate (some 7) false "done".toList "both".toList .success 0 5000
        none = none ∧
    (updateCommentStream 4999 5000 true "done".toList false (some .error) none).1 ≠
      UpdateAction.droppedByThrottle :=
  ⟨final_update_issuance.1 7 "done".toList "both".toList .success 4999 5000 none
      (by decide) (by decide),
   final_update_issuance.2.1 (some 7) "done".toList "both".toList .success 0 5000
      none,
   final_update_issuance.2.2 4999 5000 true "done".toList (some .error) none⟩

/- ===================== runner.ts: scratch directory lifecycle (lines 787-790, 1089-1098) ===================== -/

/-- How the body of `runClaudeCode` finishes: normal return with status
`success`, `error` or `timeout`, or an exception caught by the catch block
(which itself returns an error result). -/
inductive RunOutcome
  | success
  | error
  | timeout
  | thrown
deriving DecidableEq, Repr

/-- `mkdtemp`: allocate the private scratch directory; the filesystem is
modelled as the list of existing scratch-directory paths. -/
def mkdtempFs (fs : List (List Char)) (dir : List Char) : List (List Char) :=
  dir :: fs

/-- `rm(tempDir, recursive: true, force: true)`: remove the directory;
with recursive + force on a directory owned by the invocation this is
modelled as always succeeding. -/
def rmRecursiveForce (fs : List (List Char)) (dir : List Char) : List (List Char) :=
  fs.filter (· != dir)

/-- The try/catch/finally skeleton of `runClaudeCode` around the scratch
directory: the directory is created on entry; the body finishes in one of
the four outcomes (none of which touches the directory entry); the finally
block removes it on every path alike. -/
def runScratchLifecycle (fs0 : List (List Char)) (tempDir : List Char)
    (outcome : RunOutcome) : List (List Char) :=
  let fs1 := mkdtempFs fs0 tempDir
  let fs2 := match outcome with
    | .success => fs1
    | .error => fs1
    | .timeout => fs1
    | .thrown => fs1
  rmRecursiveForce fs2 tempDir

/-- C9: the scratch directory exists while the run is underway and is
removed on every exit path alike — success, error, timeout, and even an
exception caught by the catch block — so it is no longer present when
`run()` returns. -/
theorem scratch_dir_cleanup (fs0 : List (List Char)) (tempDir : List Char)
    (outcome : RunOutcome) :
    tempDir ∈ mkdtempFs fs0 tempDir ∧
    tempDir ∉ runScratchLifecycle fs0 tempDir outcome := by
  constructor
  · exact List.mem_cons_self _ _
  · intro hmem
    unfold runScratchLifecycle rmRecursiveForce at hmem
    cases outcome <;> simp [mkdtempFs] at hmem
